import Mathlib

/-!
Shallow embedding of the asset-grouping service
(`src/services/grouping.py`, `src/models/schemas.py`).

Python dictionaries are modelled as insertion-ordered association lists,
`datetime` values as natural numbers, and Python exceptions as the
`Except String` monad: a `.error` value corresponds to an uncaught
Python exception raised by the corresponding statement.
-/

namespace Grouping

/-- Operator enum from `src/models/schemas.py`. -/
inductive Operator where
  | EQUALS
  | CONTAINS
  | EXISTS
deriving DecidableEq, Repr

/-- Tag from `src/models/schemas.py`. -/
structure Tag where
  key : String
  value : String
deriving DecidableEq, Repr

/-- CloudAccount from `src/models/schemas.py`. -/
structure CloudAccount where
  id : String
  name : String
deriving DecidableEq, Repr

/-- Asset from `src/models/schemas.py`; the four internal fields default to
`None` in the source and are `Option`s here. -/
structure Asset where
  name : String
  type : String
  tags : List Tag
  cloud_account : CloudAccount
  owner_id : String
  region : String
  id : Option String := none
  group_name : Option String := none
  created_at : Option Nat := none
  updated_at : Option Nat := none
deriving DecidableEq, Repr

/-- GroupingCondition from `src/models/schemas.py`. -/
structure GroupingCondition where
  field : String
  operator : Operator
  value : Option String := none
  tag_key : Option String := none
  tag_value : Option String := none
deriving DecidableEq, Repr

/-- GroupingRule from `src/models/schemas.py`. -/
structure GroupingRule where
  group_name : String
  conditions : List GroupingCondition
  description : Option String := none
  id : Option String := none
  created_at : Option Nat := none
  updated_at : Option Nat := none
deriving DecidableEq, Repr

/-- The two in-memory mappings owned by `GroupingService.__init__`:
`self.assets` and `self.rules`, as insertion-ordered association lists. -/
structure Store where
  assets : List (String × Asset)
  rules : List (String × GroupingRule)
deriving DecidableEq, Repr

/-- `d.get(key)` on a Python dict. -/
def dictGet {α : Type} : List (String × α) → String → Option α
  | [], _ => none
  | (k, v) :: rest, key => if k == key then some v else dictGet rest key

/-- `d[key] = v` on a Python dict: replace in place when the key is present
(keeping its position), append otherwise. -/
def dictInsert {α : Type} : List (String × α) → String → α → List (String × α)
  | [], key, v => [(key, v)]
  | (k, w) :: rest, key, v =>
    if k == key then (key, v) :: rest else (k, w) :: dictInsert rest key v

/-- `d.values()` on a Python dict, in insertion order. -/
def dictValues {α : Type} (d : List (String × α)) : List α :=
  d.map Prod.snd

/-- Whether `needle` occurs at the start of `hay` (character lists). -/
def charsStartWith : List Char → List Char → Bool
  | [], _ => true
  | _ :: _, [] => false
  | c :: cs, d :: ds => c == d && charsStartWith cs ds

/-- Whether `needle` occurs contiguously anywhere in `hay` (character lists). -/
def charsContain (hay needle : List Char) : Bool :=
  match hay with
  | [] => needle.isEmpty
  | _ :: rest => charsStartWith needle hay || charsContain rest needle

/-- Python `needle in hay` on strings: case-sensitive contiguous substring
containment, no normalization. -/
def pyIn (needle hay : String) : Bool :=
  charsContain hay.toList needle.toList

/-- Python `s == v` where `s` is a `str` and `v` an `Optional[str]`:
comparing a string with `None` yields `False`. -/
def pyEqStrOpt (s : String) (v : Option String) : Bool :=
  match v with
  | some t => s == t
  | none => false

/-- Python `v in hay` where `v` is an `Optional[str]`: with `v = None` the
membership test raises `TypeError` (the left operand must be a string). -/
def pyInOptStr (v : Option String) (hay : String) : Except String Bool :=
  match v with
  | some needle => .ok (pyIn needle hay)
  | none => .error "TypeError: in str requires string as left operand, not NoneType"

/-- Python truthiness of an `Optional[str]`: `None` and the empty string are
falsy, every other string is truthy. -/
def truthy : Option String → Bool
  | none => false
  | some s => !(s == "")

/-- `GroupingService._evaluate_condition` (grouping.py lines 223-259). -/
def evalCondition (asset : Asset) (condition : GroupingCondition) : Except String Bool :=
  if condition.field == "type" then
    if condition.operator == .EQUALS then
      .ok (pyEqStrOpt asset.type condition.value)
    else if condition.operator == .CONTAINS then
      pyInOptStr condition.value asset.type
    else .ok false
  else if condition.field == "name" then
    if condition.operator == .EQUALS then
      .ok (pyEqStrOpt asset.name condition.value)
    else if condition.operator == .CONTAINS then
      pyInOptStr condition.value asset.name
    else .ok false
  else if condition.field == "tag" then
    if condition.operator == .EXISTS then
      .ok (asset.tags.any fun tag => pyEqStrOpt tag.key condition.tag_key)
    else if condition.operator == .EQUALS then
      .ok (asset.tags.any fun tag =>
        pyEqStrOpt tag.key condition.tag_key && pyEqStrOpt tag.value condition.tag_value)
    else .ok false
  else .ok false

/-- Python `all(self._evaluate_condition(asset, c) for c in conditions)`:
short-circuits at the first `False`, propagates a raised exception. -/
def evalConditionsAll (asset : Asset) : List GroupingCondition → Except String Bool
  | [] => .ok true
  | c :: cs =>
    match evalCondition asset c with
    | .error e => .error e
    | .ok b => if b then evalConditionsAll asset cs else .ok false

/-- `GroupingService._evaluate_rules` (grouping.py lines 204-221), over an
explicit insertion-ordered rule list. -/
def evalRulesList (asset : Asset) : List GroupingRule → Except String (Option String)
  | [] => .ok none
  | r :: rs =>
    match evalConditionsAll asset r.conditions with
    | .error e => .error e
    | .ok b => if b then .ok (some r.group_name) else evalRulesList asset rs

/-- `self._evaluate_rules(asset)` over the rule mapping of the store. -/
def evalRules (s : Store) (asset : Asset) : Except String (Option String) :=
  evalRulesList asset (dictValues s.rules)

/-- Loop body of `GroupingService._process_existing_assets` (lines 269-275):
assets with a truthy `group_name` are skipped; ungrouped ones are re-evaluated
and assigned only a truthy result, with `updated_at` refreshed. -/
def processAsset (rules : List GroupingRule) (now : Nat) (asset : Asset) : Except String Asset :=
  if truthy asset.group_name then .ok asset
  else
    match evalRulesList asset rules with
    | .error e => .error e
    | .ok group_name =>
      if truthy group_name then
        .ok { asset with group_name := group_name, updated_at := some now }
      else .ok asset

/-- The `for asset in self.assets.values()` loop of
`_process_existing_assets`, over the association list. -/
def processAssetsList (rules : List GroupingRule) (now : Nat) :
    List (String × Asset) → Except String (List (String × Asset))
  | [] => .ok []
  | (k, a) :: rest =>
    match processAsset rules now a with
    | .error e => .error e
    | .ok a' =>
      match processAssetsList rules now rest with
      | .error e => .error e
      | .ok rest' => .ok ((k, a') :: rest')

/-- `GroupingService._process_existing_assets` (grouping.py lines 261-275). -/
def processExistingAssets (s : Store) (now : Nat) : Except String Store :=
  match processAssetsList (dictValues s.rules) now s.assets with
  | .error e => .error e
  | .ok assets' => .ok { s with assets := assets' }

/-- `GroupingService.create_asset` (grouping.py lines 25-50): `asset_id` is
the generated uuid and `now` the creation instant. -/
def createAsset (s : Store) (asset : Asset) (asset_id : String) (now : Nat) :
    Except String (Asset × Store) :=
  let new_asset : Asset :=
    { asset with id := some asset_id, group_name := none,
                 created_at := some now, updated_at := some now }
  match evalRules s new_asset with
  | .error e => .error e
  | .ok group_name =>
    let final := if truthy group_name then { new_asset with group_name := group_name }
                 else new_asset
    .ok (final, { s with assets := dictInsert s.assets asset_id final })

/-- `GroupingService.update_asset` (grouping.py lines 73-107): the merged
record takes every non-internal field from the caller payload, keeps the
stored `id`, `created_at` and (at construction time) `group_name`, stamps
`updated_at := now`, then unconditionally overwrites `group_name` with the
fresh evaluation result. -/
def updateAsset (s : Store) (asset_id : String) (asset : Asset) (now : Nat) :
    Except String (Option Asset × Store) :=
  match dictGet s.assets asset_id with
  | none => .ok (none, s)
  | some current =>
    let merged : Asset :=
      { name := asset.name, type := asset.type, tags := asset.tags,
        cloud_account := asset.cloud_account, owner_id := asset.owner_id,
        region := asset.region, id := some asset_id,
        group_name := current.group_name,
        created_at := current.created_at, updated_at := some now }
    match evalRules s merged with
    | .error e => .error e
    | .ok group_name =>
      let updated := { merged with group_name := group_name }
      .ok (some updated, { s with assets := dictInsert s.assets asset_id updated })

/-- `GroupingService.create_rule` (grouping.py lines 121-140). -/
def createRule (s : Store) (rule : GroupingRule) (rule_id : String) (now : Nat) :
    Except String (GroupingRule × Store) :=
  let new_rule : GroupingRule :=
    { rule with id := some rule_id, created_at := some now, updated_at := some now }
  let s1 : Store := { s with rules := dictInsert s.rules rule_id new_rule }
  match processExistingAssets s1 now with
  | .error e => .error e
  | .ok s2 => .ok (new_rule, s2)

/-- An update payload for a rule as pydantic sees it under
`exclude_unset=True`: `some` marks a field the caller explicitly set. -/
structure RulePayload where
  group_name : Option String := none
  conditions : Option (List GroupingCondition) := none
  description : Option (Option String) := none
deriving DecidableEq, Repr

/-- Keys of `current_rule.model_dump()` with no exclusions: every field of
`GroupingRule`. -/
def ruleDumpKeys : List String :=
  ["group_name", "conditions", "description", "id", "created_at", "updated_at"]

/-- Keys of `rule.model_dump(exclude=..., exclude_unset=True)`: the fields the
caller set, minus `id`, `created_at`, `updated_at`. -/
def rulePayloadSetKeys (p : RulePayload) : List String :=
  (if p.group_name.isSome then ["group_name"] else []) ++
  (if p.conditions.isSome then ["conditions"] else []) ++
  (if p.description.isSome then ["description"] else [])

/-- Whether a list of keyword-argument names is duplicate-free; Python raises
`TypeError` at a call site that repeats a keyword. -/
def keysDistinct : List String → Bool
  | [] => true
  | k :: ks => !(ks.contains k) && keysDistinct ks

/-- `GroupingService.update_rule` (grouping.py lines 163-190). The source
builds the record with `GroupingRule(**current_rule.model_dump(),
**update_data, updated_at=datetime.now(UTC))`, which passes the keys of the dump,
the set payload keys and the literal `updated_at` keyword to one call; Python
raises `TypeError` when any keyword repeats, before anything is stored. -/
def updateRule (s : Store) (rule_id : String) (rule : RulePayload) (now : Nat) :
    Except String (Option GroupingRule × Store) :=
  match dictGet s.rules rule_id with
  | none => .ok (none, s)
  | some current =>
    if keysDistinct (ruleDumpKeys ++ rulePayloadSetKeys rule ++ ["updated_at"]) then
      let merged : GroupingRule :=
        { group_name := rule.group_name.getD current.group_name,
          conditions := rule.conditions.getD current.conditions,
          description := rule.description.getD current.description,
          id := current.id, created_at := current.created_at,
          updated_at := some now }
      let s1 : Store := { s with rules := dictInsert s.rules rule_id merged }
      match processExistingAssets s1 now with
      | .error e => .error e
      | .ok s2 => .ok (some merged, s2)
    else
      .error "TypeError: got multiple values for keyword argument updated_at"

/-! ### Operation steps (for the cross-operation timestamp invariant) -/

/-- One mutating call on the service: create/update asset, create/update rule,
or a bare reprocessing pass. The `String` arguments of the create operations
are the generated uuids; each `Nat` is the wall-clock instant of the call. -/
inductive Op where
  | opCreateAsset : Asset → String → Nat → Op
  | opUpdateAsset : String → Asset → Nat → Op
  | opCreateRule : GroupingRule → String → Nat → Op
  | opUpdateRule : String → RulePayload → Nat → Op
  | opReprocess : Nat → Op

/-- Run one operation for its effect on the store; a Python exception leaves
the outcome as `.error`. -/
def applyOp (s : Store) : Op → Except String Store
  | .opCreateAsset a aid now =>
    match createAsset s a aid now with
    | .error e => .error e
    | .ok p => .ok p.2
  | .opUpdateAsset aid a now =>
    match updateAsset s aid a now with
    | .error e => .error e
    | .ok p => .ok p.2
  | .opCreateRule r rid now =>
    match createRule s r rid now with
    | .error e => .error e
    | .ok p => .ok p.2
  | .opUpdateRule rid p now =>
    match updateRule s rid p now with
    | .error e => .error e
    | .ok q => .ok q.2
  | .opReprocess now => processExistingAssets s now

/-- The wall-clock instant an operation runs at. -/
def opNow : Op → Nat
  | .opCreateAsset _ _ now => now
  | .opUpdateAsset _ _ now => now
  | .opCreateRule _ _ now => now
  | .opUpdateRule _ _ now => now
  | .opReprocess now => now

/-- Both timestamps of an asset are set and `created_at ≤ updated_at`. -/
def timesOkB (a : Asset) : Bool :=
  match a.created_at, a.updated_at with
  | some c, some u => c ≤ u
  | _, _ => false

/-- The stored `created_at` of the asset (when set) does not lie in the future of `n`. -/
def belowB (n : Nat) (a : Asset) : Bool :=
  match a.created_at with
  | some c => c ≤ n
  | none => true

/-- A generated uuid never collides with a stored asset id: for
`opCreateAsset` the fresh id must be absent from the asset mapping. -/
def opFreshB (s : Store) : Op → Bool
  | .opCreateAsset _ aid _ => (dictGet s.assets aid).isNone
  | _ => true

/-- Run a whole sequence of operations, stopping at the first exception. -/
def applyOps (s : Store) : List Op → Except String Store
  | [] => .ok s
  | op :: ops =>
    match applyOp s op with
    | .error e => .error e
    | .ok s1 => applyOps s1 ops

/-- Side conditions of a well-formed trace: each operation runs under a
monotone clock (no stored `created_at` lies in its future) and with a fresh
generated id, judged in the store it actually executes against. -/
def validOpsB (s : Store) : List Op → Bool
  | [] => true
  | op :: ops =>
    s.assets.all (fun p => belowB (opNow op) p.2) && opFreshB s op &&
      (match applyOp s op with
       | .error _ => true
       | .ok s1 => validOpsB s1 ops)

/-! ### Specification-side definitions (from the words of spec.md, for the
refinement statements) -/

/-- A condition matches an asset when the evaluator returns `True` without
raising. -/
def condMatchesB (asset : Asset) (c : GroupingCondition) : Bool :=
  match evalCondition asset c with
  | .ok true => true
  | _ => false

/-- Spec 4.2: a rule matches iff all of its conditions match; an empty
condition list is vacuously true. -/
def specRuleMatches (asset : Asset) (r : GroupingRule) : Bool :=
  r.conditions.all (condMatchesB asset)

/-- Spec 4.2 `resolveGroup`: the `group_name` of the first matching rule in
insertion order, none when no rule matches. -/
def specResolveGroup (asset : Asset) (rules : List GroupingRule) : Option String :=
  (rules.find? (specRuleMatches asset)).map GroupingRule.group_name

/-- The record `update_asset` builds by merging the non-internal payload
fields over the stored record (grouping.py lines 87-99), with the
`group_name` slot parameterized: it holds the stored group at construction
time and the fresh evaluation result after line 103. -/
def mergeAsset (payload : Asset) (asset_id : String) (current : Asset) (now : Nat)
    (g : Option String) : Asset :=
  { name := payload.name, type := payload.type, tags := payload.tags,
    cloud_account := payload.cloud_account, owner_id := payload.owner_id,
    region := payload.region, id := some asset_id, group_name := g,
    created_at := current.created_at, updated_at := some now }

/-! ### Concrete sample data (the scenarios of spec section 8), used by the witness
statements -/

/-- Sample cloud account. -/
def acct : CloudAccount := { id := "123", name := "main" }

/-- The three-condition production rule of spec 8. -/
def sampleRule : GroupingRule :=
  { group_name := "production-instances",
    description := some "Production Instances",
    conditions := [
      { field := "type", operator := .EQUALS, value := some "ec2-instance" },
      { field := "name", operator := .CONTAINS, value := some "prod" },
      { field := "tag", operator := .EQUALS, tag_key := some "env", tag_value := some "prod" }] }

/-- The matching asset of the concrete scenario in spec section 8. -/
def assetOne : Asset :=
  { name := "prod-instance", type := "ec2-instance",
    tags := [{ key := "env", value := "prod" }],
    cloud_account := acct, owner_id := "user1", region := "us-east-1" }

/-- The non-matching asset of the concrete scenario in spec section 8. -/
def assetTwo : Asset :=
  { name := "dev-instance", type := "ec2-instance",
    tags := [{ key := "env", value := "dev" }],
    cloud_account := acct, owner_id := "user1", region := "us-east-1" }

/-- The empty store of `GroupingService.__init__`. -/
def emptyStore : Store := { assets := [], rules := [] }

/-- `sampleRule` as stored after `create_rule(..., "r1", 1)`. -/
def storedRule : GroupingRule :=
  { sampleRule with id := some "r1", created_at := some 1, updated_at := some 1 }

/-- A store holding only `storedRule`. -/
def storeR : Store := { assets := [], rules := [("r1", storedRule)] }

/-- `assetOne` as stored, ungrouped, with timestamps 1. -/
def storedAssetOne : Asset :=
  { assetOne with id := some "a1", created_at := some 1, updated_at := some 1 }

/-- A store holding only the ungrouped `storedAssetOne`. -/
def storeA : Store := { assets := [("a1", storedAssetOne)], rules := [] }

/-- A rule matching every `ec2-instance` asset, stored first. -/
def ruleA : GroupingRule :=
  { group_name := "group-a",
    conditions := [{ field := "type", operator := .EQUALS, value := some "ec2-instance" }],
    id := some "rA", created_at := some 1, updated_at := some 1 }

/-- A rule with an empty condition list (matches everything), stored second. -/
def ruleB : GroupingRule :=
  { group_name := "group-b", conditions := [],
    id := some "rB", created_at := some 2, updated_at := some 2 }

/-- A store where both `ruleA` and `ruleB` match `assetOne`. -/
def storeFM : Store := { assets := [], rules := [("rA", ruleA), ("rB", ruleB)] }

/-- A store holding `storedAssetOne` (ungrouped) and `storedRule`. -/
def storeAR : Store :=
  { assets := [("a1", storedAssetOne)], rules := [("r1", storedRule)] }

/-- `storedAssetOne` once the reprocessing pass at instant 3 has grouped it. -/
def groupedAssetOne : Asset :=
  { assetOne with id := some "a1", created_at := some 1, updated_at := some 3,
                  group_name := some "production-instances" }

/-- `storeAR` after a reprocessing pass at instant 3: the asset is grouped. -/
def storeARafter : Store :=
  { assets := [("a1", groupedAssetOne)], rules := [("r1", storedRule)] }

/-- The fields of `assetTwo` merged over `storedAssetOne` at instant 7 (no rules,
so the fresh group is none). -/
def updatedAssetTwo : Asset :=
  { assetTwo with id := some "a1", created_at := some 1, updated_at := some 7 }

/-- `storeA` after `update_asset("a1", assetTwo)` at instant 7. -/
def storeAupd : Store := { assets := [("a1", updatedAssetTwo)], rules := [] }

/-- `sampleRule` as stored by `create_rule(..., "r1", 3)`. -/
def storedRule3 : GroupingRule :=
  { sampleRule with id := some "r1", created_at := some 3, updated_at := some 3 }

/-- `storedAssetOne` grouped at instant 3 by the reprocessing pass. -/
def storedAssetOneGrouped : Asset :=
  { storedAssetOne with group_name := some "production-instances", updated_at := some 3 }

/-- `storeA` after `create_rule(sampleRule, "r1", 3)`: the rule is stored and
the reprocessing pass has grouped the asset. -/
def storeC6after : Store :=
  { assets := [("a1", storedAssetOneGrouped)], rules := [("r1", storedRule3)] }

/-- A rule whose group name is the empty string, matching everything. -/
def ruleEmptyName : GroupingRule :=
  { group_name := "", conditions := [],
    id := some "rE", created_at := some 1, updated_at := some 1 }

/-- A store with `storedAssetOne` and the empty-group-name rule. -/
def storeE : Store :=
  { assets := [("a1", storedAssetOne)], rules := [("rE", ruleEmptyName)] }

/-- A stored asset whose cached group name is the empty string. -/
def assetEmptyG : Asset := { storedAssetOne with group_name := some "" }

/-- `storedAssetOne` grouped at instant 5 by a reprocessing pass. -/
def groupedAssetOne5 : Asset :=
  { storedAssetOne with group_name := some "production-instances", updated_at := some 5 }

/-- `storeAR` after a reprocessing pass at instant 5. -/
def storeAR5 : Store :=
  { assets := [("a1", groupedAssetOne5)], rules := [("r1", storedRule)] }

/-! ### Helper lemmas -/

theorem charsStartWith_iff (n l : List Char) :
    charsStartWith n l = true ↔ ∃ r, l = n ++ r := by
  induction n generalizing l with
  | nil => simp [charsStartWith]
  | cons c cs ih =>
    cases l with
    | nil => simp [charsStartWith]
    | cons d ds =>
      simp only [charsStartWith, Bool.and_eq_true, beq_iff_eq, ih, List.cons_append]
      constructor
      · rintro ⟨hcd, r, hr⟩
        exact ⟨r, by rw [hcd, hr]⟩
      · rintro ⟨r, hr⟩
        injection hr with h1 h2
        exact ⟨h1.symm, r, h2⟩

theorem charsContain_iff (h n : List Char) :
    charsContain h n = true ↔ ∃ p r, h = p ++ n ++ r := by
  induction h with
  | nil =>
    cases n with
    | nil => simp [charsContain]
    | cons c cs => simp [charsContain, List.isEmpty, eq_comm, List.append_eq_nil]
  | cons c rest ih =>
    simp only [charsContain, Bool.or_eq_true, charsStartWith_iff, ih]
    constructor
    · rintro (⟨r, hr⟩ | ⟨p, r, hr⟩)
      · exact ⟨[], r, by simp [hr]⟩
      · exact ⟨c :: p, r, by simp [hr]⟩
    · rintro ⟨p, r, hr⟩
      cases p with
      | nil => exact Or.inl ⟨r, by simpa using hr⟩
      | cons d ds =>
        injection hr with h1 h2
        exact Or.inr ⟨ds, r, by simp [h2]⟩

/-- Python substring containment agrees with the explicit decomposition
reading of "is a substring of". -/
theorem pyIn_iff (needle hay : String) :
    pyIn needle hay = true ↔ ∃ p r, hay.toList = p ++ needle.toList ++ r :=
  charsContain_iff hay.toList needle.toList

/-- The evaluator reads only `name`, `type` and `tags` of the asset. -/
theorem evalCondition_congr {a b : Asset} (c : GroupingCondition)
    (hn : a.name = b.name) (ht : a.type = b.type) (hg : a.tags = b.tags) :
    evalCondition a c = evalCondition b c := by
  simp only [evalCondition, hn, ht, hg]

theorem evalConditionsAll_congr {a b : Asset} (cs : List GroupingCondition)
    (hn : a.name = b.name) (ht : a.type = b.type) (hg : a.tags = b.tags) :
    evalConditionsAll a cs = evalConditionsAll b cs := by
  induction cs with
  | nil => rfl
  | cons c cs ih =>
    simp only [evalConditionsAll, evalCondition_congr c hn ht hg, ih]

theorem evalRulesList_congr {a b : Asset} (rs : List GroupingRule)
    (hn : a.name = b.name) (ht : a.type = b.type) (hg : a.tags = b.tags) :
    evalRulesList a rs = evalRulesList b rs := by
  induction rs with
  | nil => rfl
  | cons r rs ih =>
    simp only [evalRulesList, evalConditionsAll_congr r.conditions hn ht hg, ih]

theorem evalConditionsAll_ok_true (a : Asset) (cs : List GroupingCondition)
    (h : evalConditionsAll a cs = .ok true) :
    cs.all (condMatchesB a) = true := by
  induction cs with
  | nil => rfl
  | cons c cs ih =>
    simp only [evalConditionsAll] at h
    cases he : evalCondition a c with
    | error e => rw [he] at h; exact absurd h (by simp)
    | ok b =>
      rw [he] at h
      cases b with
      | false => simp at h
      | true =>
        simp only [if_true] at h
        simp [List.all_cons, condMatchesB, he, ih h]

theorem evalConditionsAll_ok_false (a : Asset) (cs : List GroupingCondition)
    (h : evalConditionsAll a cs = .ok false) :
    cs.all (condMatchesB a) = false := by
  induction cs with
  | nil => simp [evalConditionsAll] at h
  | cons c cs ih =>
    simp only [evalConditionsAll] at h
    cases he : evalCondition a c with
    | error e => rw [he] at h; exact absurd h (by simp)
    | ok b =>
      rw [he] at h
      cases b with
      | false => simp [List.all_cons, condMatchesB, he]
      | true =>
        simp only [if_true] at h
        simp [List.all_cons, ih h]

/-- Whenever `_evaluate_rules` returns normally, its result is exactly the
first-match resolution of the spec. -/
theorem evalRulesList_ok (a : Asset) (rs : List GroupingRule) (r : Option String)
    (h : evalRulesList a rs = .ok r) :
    r = specResolveGroup a rs := by
  induction rs generalizing r with
  | nil =>
    simp only [evalRulesList] at h
    injection h with h
    simp [specResolveGroup, h.symm]
  | cons rule rest ih =>
    simp only [evalRulesList] at h
    cases he : evalConditionsAll a rule.conditions with
    | error e => rw [he] at h; exact absurd h (by simp)
    | ok b =>
      rw [he] at h
      cases b with
      | true =>
        simp only [if_true] at h
        injection h with h
        have hm := evalConditionsAll_ok_true a rule.conditions he
        simp [specResolveGroup, List.find?, specRuleMatches, hm, h.symm]
      | false =>
        simp only [Bool.false_eq_true, if_false] at h
        have hm := evalConditionsAll_ok_false a rule.conditions he
        have hr := ih r h
        simp [specResolveGroup, List.find?, specRuleMatches, hm] at hr ⊢
        exact hr

theorem dictGet_insert {α : Type} (l : List (String × α)) (k : String) (v : α) (key : String) :
    dictGet (dictInsert l k v) key = if k == key then some v else dictGet l key := by
  induction l with
  | nil => simp [dictInsert, dictGet]
  | cons p rest ih =>
    obtain ⟨k', w⟩ := p
    simp only [dictInsert]
    by_cases h : k' = k
    · subst h
      by_cases h2 : k' = key <;> simp [dictGet, h2]
    · by_cases h2 : k' = key
      · subst h2
        have hk : ¬(k = k') := fun hc => h hc.symm
        simp [dictGet, h, hk]
      · simp [dictGet, h, h2, ih]

theorem dictInsert_fresh {α : Type} (l : List (String × α)) (k : String) (v : α)
    (h : dictGet l k = none) : dictInsert l k v = l ++ [(k, v)] := by
  induction l with
  | nil => simp [dictInsert]
  | cons p rest ih =>
    obtain ⟨k', w⟩ := p
    simp only [dictGet] at h
    by_cases hk : (k' == k) = true
    · rw [if_pos hk] at h
      exact absurd h (by simp)
    · rw [if_neg hk] at h
      have hk' : (k' == k) = false := by simpa using hk
      simp [dictInsert, hk', ih h]

/-- `dictGet` returning a value exhibits a stored entry. -/
theorem dictGet_mem {α : Type} (l : List (String × α)) (k : String) (v : α)
    (h : dictGet l k = some v) : (k, v) ∈ l := by
  induction l with
  | nil => simp [dictGet] at h
  | cons p rest ih =>
    obtain ⟨k', w⟩ := p
    simp only [dictGet] at h
    by_cases hk : (k' == k) = true
    · rw [if_pos hk] at h
      injection h with h
      simp only [beq_iff_eq] at hk
      simp [hk, h]
    · rw [if_neg hk] at h
      exact List.mem_cons_of_mem _ (ih h)

/-- Entries of `dictInsert l k v` are the new entry or old ones. -/
theorem dictInsert_mem {α : Type} (l : List (String × α)) (k : String) (v : α)
    (p : String × α) (h : p ∈ dictInsert l k v) : p = (k, v) ∨ p ∈ l := by
  induction l with
  | nil => simpa [dictInsert] using h
  | cons q rest ih =>
    obtain ⟨k', w⟩ := q
    simp only [dictInsert] at h
    by_cases hk : (k' == k) = true
    · rw [if_pos hk] at h
      rcases List.mem_cons.mp h with h1 | h1
      · exact Or.inl h1
      · exact Or.inr (List.mem_cons_of_mem _ h1)
    · rw [if_neg hk] at h
      rcases List.mem_cons.mp h with h1 | h1
      · exact Or.inr (by simp [h1])
      · rcases ih h1 with h2 | h2
        · exact Or.inl h2
        · exact Or.inr (List.mem_cons_of_mem _ h2)

/-- Exhaustive description of one `_process_existing_assets` loop body. -/
theorem processAsset_cases (rules : List GroupingRule) (now : Nat) (a a' : Asset)
    (h : processAsset rules now a = .ok a') :
    (truthy a.group_name = true ∧ a' = a) ∨
    (truthy a.group_name = false ∧ ∃ g, evalRulesList a rules = .ok g ∧
      ((truthy g = false ∧ a' = a) ∨
       (truthy g = true ∧ a' = { a with group_name := g, updated_at := some now }))) := by
  unfold processAsset at h
  by_cases ht : truthy a.group_name = true
  · rw [if_pos ht] at h
    injection h with h
    exact Or.inl ⟨ht, h.symm⟩
  · rw [if_neg ht] at h
    split at h
    · exact absurd h (by simp)
    · rename_i g he
      by_cases hg : truthy g = true
      · rw [if_pos hg] at h
        injection h with h
        exact Or.inr ⟨by simpa using ht, g, he, Or.inr ⟨hg, h.symm⟩⟩
      · rw [if_neg hg] at h
        injection h with h
        exact Or.inr ⟨by simpa using ht, g, he, Or.inl ⟨by simpa using hg, h.symm⟩⟩

/-- Processing an already-processed asset again changes nothing. -/
theorem processAsset_idem (rules : List GroupingRule) (n1 n2 : Nat) (a a' : Asset)
    (h : processAsset rules n1 a = .ok a') :
    processAsset rules n2 a' = .ok a' := by
  rcases processAsset_cases rules n1 a a' h with ⟨ht, rfl⟩ | ⟨ht, g, he, hcase⟩
  · simp [processAsset, ht]
  · rcases hcase with ⟨hg, rfl⟩ | ⟨hg, rfl⟩
    · simp [processAsset, ht, he, hg]
    · have : truthy ({ a with group_name := g, updated_at := some n1 } : Asset).group_name = true := hg
      simp [processAsset, this]

/-- The pass preserves `created_at` and only ever bumps `updated_at` to the
instant of the pass. -/
theorem processAsset_times (rules : List GroupingRule) (now : Nat) (a a' : Asset)
    (h : processAsset rules now a = .ok a') :
    a'.created_at = a.created_at ∧
    (a'.updated_at = a.updated_at ∨ a'.updated_at = some now) := by
  rcases processAsset_cases rules now a a' h with ⟨_, rfl⟩ | ⟨_, g, _, hcase⟩
  · exact ⟨rfl, Or.inl rfl⟩
  · rcases hcase with ⟨_, rfl⟩ | ⟨_, rfl⟩
    · exact ⟨rfl, Or.inl rfl⟩
    · exact ⟨rfl, Or.inr rfl⟩

/-- Per-key description of the whole pass over the association list. -/
theorem processAssetsList_get (rules : List GroupingRule) (now : Nat)
    (l l' : List (String × Asset)) (h : processAssetsList rules now l = .ok l')
    (key : String) :
    (dictGet l key = none → dictGet l' key = none) ∧
    (∀ a, dictGet l key = some a →
      ∃ a', processAsset rules now a = .ok a' ∧ dictGet l' key = some a') := by
  induction l generalizing l' with
  | nil =>
    simp only [processAssetsList] at h
    injection h with h
    subst h
    simp [dictGet]
  | cons p rest ih =>
    obtain ⟨k, a⟩ := p
    simp only [processAssetsList] at h
    cases ha : processAsset rules now a with
    | error e => rw [ha] at h; exact absurd h (by simp)
    | ok a1 =>
      rw [ha] at h
      cases hr : processAssetsList rules now rest with
      | error e => rw [hr] at h; exact absurd h (by simp)
      | ok rest' =>
        rw [hr] at h
        injection h with h
        subst h
        by_cases hk : (k == key) = true
        · constructor
          · intro hnone
            simp [dictGet, hk] at hnone
          · intro b hb
            simp only [dictGet, if_pos hk] at hb ⊢
            injection hb with hb
            subst hb
            exact ⟨a1, ha, rfl⟩
        · have := ih rest' hr
          constructor
          · intro hnone
            simp only [dictGet, if_neg hk] at hnone ⊢
            exact this.1 hnone
          · intro b hb
            simp only [dictGet, if_neg hk] at hb ⊢
            exact this.2 b hb

/-- Every entry of the processed list arises from an input entry with the same
key, via the loop body. -/
theorem processAssetsList_mem (rules : List GroupingRule) (now : Nat)
    (l l' : List (String × Asset)) (h : processAssetsList rules now l = .ok l')
    (p : String × Asset) (hp : p ∈ l') :
    ∃ a, (p.1, a) ∈ l ∧ processAsset rules now a = .ok p.2 := by
  induction l generalizing l' with
  | nil =>
    simp only [processAssetsList] at h
    injection h with h
    subst h
    simp at hp
  | cons q rest ih =>
    obtain ⟨k, a⟩ := q
    simp only [processAssetsList] at h
    cases ha : processAsset rules now a with
    | error e => rw [ha] at h; exact absurd h (by simp)
    | ok a1 =>
      rw [ha] at h
      cases hr : processAssetsList rules now rest with
      | error e => rw [hr] at h; exact absurd h (by simp)
      | ok rest' =>
        rw [hr] at h
        injection h with h
        subst h
        rcases List.mem_cons.mp hp with h1 | h1
        · subst h1
          exact ⟨a, by simp, ha⟩
        · obtain ⟨b, hb1, hb2⟩ := ih rest' hr h1
          exact ⟨b, List.mem_cons_of_mem _ hb1, hb2⟩

/-- Running the per-list pass twice changes nothing further. -/
theorem processAssetsList_idem (rules : List GroupingRule) (n1 n2 : Nat)
    (l l' : List (String × Asset)) (h : processAssetsList rules n1 l = .ok l') :
    processAssetsList rules n2 l' = .ok l' := by
  induction l generalizing l' with
  | nil =>
    simp only [processAssetsList] at h
    injection h with h
    subst h
    rfl
  | cons q rest ih =>
    obtain ⟨k, a⟩ := q
    simp only [processAssetsList] at h
    cases ha : processAsset rules n1 a with
    | error e => rw [ha] at h; exact absurd h (by simp)
    | ok a1 =>
      rw [ha] at h
      cases hr : processAssetsList rules n1 rest with
      | error e => rw [hr] at h; exact absurd h (by simp)
      | ok rest' =>
        rw [hr] at h
        injection h with h
        subst h
        simp only [processAssetsList, processAsset_idem rules n1 n2 a a1 ha,
          ih rest' hr]

/-- Decomposition of `_process_existing_assets` at the store level. -/
theorem processExistingAssets_ok (s : Store) (now : Nat) (s' : Store)
    (h : processExistingAssets s now = .ok s') :
    processAssetsList (dictValues s.rules) now s.assets = .ok s'.assets ∧
    s'.rules = s.rules := by
  unfold processExistingAssets at h
  cases hl : processAssetsList (dictValues s.rules) now s.assets with
  | error e => rw [hl] at h; exact absurd h (by simp)
  | ok assets' =>
    rw [hl] at h
    injection h with h
    subst h
    exact ⟨rfl, rfl⟩

/-- On a present rule id, `update_rule` raises: the keyword list of the
`GroupingRule(...)` call always repeats `updated_at`. -/
theorem updateRule_raises (s : Store) (rule_id : String)
    (p : RulePayload) (now : Nat) (current : GroupingRule)
    (h : dictGet s.rules rule_id = some current) :
    updateRule s rule_id p now =
      .error "TypeError: got multiple values for keyword argument updated_at" := by
  unfold updateRule
  rw [h]
  obtain ⟨g, c, d⟩ := p
  cases g <;> cases c <;> cases d <;> rfl

/-- The only normal return of `update_rule` is the NotFound signal with the
store unchanged. -/
theorem updateRule_ok (s : Store) (rule_id : String) (p : RulePayload) (now : Nat)
    (q : Option GroupingRule × Store) (h : updateRule s rule_id p now = .ok q) :
    q = (none, s) := by
  cases hcur : dictGet s.rules rule_id with
  | none =>
    unfold updateRule at h
    rw [hcur] at h
    injection h with h
    exact h.symm
  | some current =>
    rw [updateRule_raises s rule_id p now current hcur] at h
    exact absurd h (by simp)

/-! ### Claim theorems -/

/-- C1: the claim fails against the code — `update_rule` with a present rule id
never merges, stores or reprocesses anything. The construction
`GroupingRule(**current_rule.model_dump(), **update_data, updated_at=...)`
passes the `updated_at` keyword twice (once inside the dump, once explicitly),
so Python raises `TypeError` for every stored rule id and every payload,
before the rule mapping is touched. Only the NotFound half of the claim holds. -/
theorem update_rule_present_id_raises (s : Store) (rule_id : String)
    (p : RulePayload) (now : Nat) (current : GroupingRule)
    (h : dictGet s.rules rule_id = some current) :
    updateRule s rule_id p now =
      .error "TypeError: got multiple values for keyword argument updated_at" :=
  updateRule_raises s rule_id p now current h

/-- Witness for C1: a store holding one rule; updating it raises. -/
theorem update_rule_present_id_raises_witness :
    updateRule storeR "r1" {} 5 =
      .error "TypeError: got multiple values for keyword argument updated_at" :=
  update_rule_present_id_raises storeR "r1" {} 5 storedRule rfl

/-- C2 counterexample: the evaluator is not total — with field `name`,
operator `contains` and an absent value it raises `TypeError` instead of
treating the comparison as non-matching. -/
theorem evaluator_raises_cex :
    evalCondition assetOne { field := "name", operator := .CONTAINS } =
      .error "TypeError: in str requires string as left operand, not NoneType" := rfl

/-- C2 amended: the evaluator raises exactly when the field is `type` or
`name`, the operator is `contains` and the value is absent; on every other
condition it returns a Bool without failing (absent values compare as
non-matching, unknown field/operator combinations give false). -/
theorem evaluator_total_except_contains_absent (asset : Asset) (c : GroupingCondition) :
    (∃ e, evalCondition asset c = .error e) ↔
      ((c.field = "type" ∨ c.field = "name") ∧
        c.operator = .CONTAINS ∧ c.value = none) := by
  obtain ⟨f, op, v, tk, tv⟩ := c
  by_cases h1 : f = "type"
  · subst h1
    cases op <;> rcases v with _ | v <;>
      simp [evalCondition, pyInOptStr, pyEqStrOpt]
  · by_cases h2 : f = "name"
    · subst h2
      cases op <;> rcases v with _ | v <;>
        simp [evalCondition, pyInOptStr, pyEqStrOpt]
    · by_cases h3 : f = "tag"
      · subst h3
        cases op <;> simp [evalCondition, h1, h2]
      · simp [evalCondition, h1, h2, h3]

/-- C3: whenever rule resolution returns normally it implements the first-match-wins
algorithm of the spec over the insertion-ordered rule list: the result is
the group name of the first rule all of whose conditions match, none when no
rule matches; an empty condition list matches vacuously; and creating a rule
with a fresh id appends it to the iteration order, so earlier-created rules
win. -/
theorem resolve_group_first_match (s : Store) (asset : Asset) (r : Option String)
    (h : evalRules s asset = .ok r) :
    r = specResolveGroup asset (dictValues s.rules) ∧
    (∀ rule : GroupingRule, rule.conditions = [] → specRuleMatches asset rule = true) ∧
    (∀ (rule : GroupingRule) (rid : String) (now : Nat) (nr : GroupingRule) (s2 : Store),
      dictGet s.rules rid = none → createRule s rule rid now = .ok (nr, s2) →
      dictValues s2.rules = dictValues s.rules ++ [nr]) := by
  refine ⟨evalRulesList_ok asset _ r h, ?_, ?_⟩
  · intro rule hrule
    simp [specRuleMatches, hrule]
  · intro rule rid now nr s2 hfresh hc
    simp only [createRule] at hc
    split at hc
    · exact absurd hc (by simp)
    · rename_i s3 hp
      rw [Except.ok.injEq, Prod.mk.injEq] at hc
      obtain ⟨rfl, rfl⟩ := hc
      have hrules := (processExistingAssets_ok _ _ _ hp).2
      simp only at hrules
      rw [hrules, dictInsert_fresh s.rules rid _ hfresh]
      simp [dictValues]

/-- Witness for C3: in a store whose two stored rules both match the asset,
resolution returns the group name of the first one. -/
theorem resolve_group_first_match_witness :
    (some "group-a" : Option String) = specResolveGroup assetOne (dictValues storeFM.rules) ∧
    (∀ rule : GroupingRule, rule.conditions = [] → specRuleMatches assetOne rule = true) ∧
    (∀ (rule : GroupingRule) (rid : String) (now : Nat) (nr : GroupingRule) (s2 : Store),
      dictGet storeFM.rules rid = none → createRule storeFM rule rid now = .ok (nr, s2) →
      dictValues s2.rules = dictValues storeFM.rules ++ [nr]) :=
  resolve_group_first_match storeFM assetOne (some "group-a") rfl

/-- C7: the reprocessing pass is idempotent — immediately re-running it with
no intervening mutation returns the stored state unchanged, whatever instant
the second pass runs at. -/
theorem reprocess_pass_idem (s s1 : Store) (n1 n2 : Nat)
    (h : processExistingAssets s n1 = .ok s1) :
    processExistingAssets s1 n2 = .ok s1 := by
  obtain ⟨hl, hr⟩ := processExistingAssets_ok s n1 s1 h
  unfold processExistingAssets
  rw [hr, processAssetsList_idem (dictValues s.rules) n1 n2 s.assets s1.assets hl]
  show Except.ok ({ assets := s1.assets, rules := s.rules } : Store) = Except.ok s1
  rw [← hr]

/-- Witness for C7: the pass at instant 3 groups the stored asset; the pass at
instant 9 then changes nothing. -/
theorem reprocess_pass_idem_witness :
    processExistingAssets storeARafter 9 = .ok storeARafter :=
  reprocess_pass_idem storeAR storeARafter 3 9 rfl

/-- C9: an update aimed at an absent id returns the NotFound signal and leaves
the whole store untouched — both mappings unchanged, no reprocessing pass. -/
theorem update_absent_id_atomic (s : Store) (id : String) (ap : Asset)
    (rp : RulePayload) (now : Nat) :
    (dictGet s.assets id = none → updateAsset s id ap now = .ok (none, s)) ∧
    (dictGet s.rules id = none → updateRule s id rp now = .ok (none, s)) := by
  constructor
  · intro h
    unfold updateAsset
    rw [h]
  · intro h
    unfold updateRule
    rw [h]

/-- Witness for C9: updating a missing asset id and a missing rule id returns
NotFound and the unchanged store. -/
theorem update_absent_id_atomic_witness :
    updateAsset storeR "missing" assetOne 9 = .ok (none, storeR) ∧
    updateRule storeR "missing" {} 9 = .ok (none, storeR) :=
  ⟨(update_absent_id_atomic storeR "missing" assetOne {} 9).1 rfl,
   (update_absent_id_atomic storeR "missing" assetOne {} 9).2 rfl⟩

/-- The optional-value string comparison holds iff the value is present and
equal. -/
theorem pyEqStrOpt_true_iff (s : String) (v : Option String) :
    pyEqStrOpt s v = true ↔ v = some s := by
  rcases v with _ | t
  · simp [pyEqStrOpt]
  · simp only [pyEqStrOpt, beq_iff_eq, Option.some.injEq]
    exact ⟨Eq.symm, Eq.symm⟩

/-- Same fact lifted to the `Except` result of the evaluator. -/
theorem pyEqStrOpt_ok_iff (s : String) (v : Option String) :
    (Except.ok (ε := String) (pyEqStrOpt s v) = .ok true) ↔ v = some s := by
  rw [Except.ok.injEq]
  exact pyEqStrOpt_true_iff s v

/-- C4 counterexample: at the defined combination type/contains with an
absent value the table of the claim prescribes false (absent value non-matching),
but the evaluator returns no Bool at all — it raises. -/
theorem matching_table_cex :
    evalCondition assetTwo { field := "type", operator := .CONTAINS } ≠ .ok false ∧
    evalCondition assetTwo { field := "type", operator := .CONTAINS } =
      .error "TypeError: in str requires string as left operand, not NoneType" := by
  constructor
  · intro hb
    have he : evalCondition assetTwo { field := "type", operator := .CONTAINS } =
        .error "TypeError: in str requires string as left operand, not NoneType" := rfl
    rw [he] at hb
    exact Except.noConfusion hb
  · rfl

/-- C4 amended: for defined field/operator combinations the evaluator returns
exactly the comparison of the matching table whenever that comparison is defined —
equals rows compare against the optional value (absent value non-matching),
contains rows with a present value test exact case-sensitive substring
containment, tag rows scan the tag list, and any other combination gives
false — but a contains row with an absent value raises `TypeError` instead of
returning false. -/
theorem matching_table (a : Asset) (c : GroupingCondition) :
    (c.field = "type" → c.operator = .EQUALS →
      (evalCondition a c = .ok true ↔ c.value = some a.type) ∧
      ∃ b, evalCondition a c = .ok b) ∧
    (c.field = "name" → c.operator = .EQUALS →
      (evalCondition a c = .ok true ↔ c.value = some a.name) ∧
      ∃ b, evalCondition a c = .ok b) ∧
    (∀ v, c.field = "type" → c.operator = .CONTAINS → c.value = some v →
      (evalCondition a c = .ok true ↔ ∃ p q, a.type.toList = p ++ v.toList ++ q) ∧
      ∃ b, evalCondition a c = .ok b) ∧
    (∀ v, c.field = "name" → c.operator = .CONTAINS → c.value = some v →
      (evalCondition a c = .ok true ↔ ∃ p q, a.name.toList = p ++ v.toList ++ q) ∧
      ∃ b, evalCondition a c = .ok b) ∧
    (c.field = "tag" → c.operator = .EXISTS →
      (evalCondition a c = .ok true ↔ ∃ t ∈ a.tags, c.tag_key = some t.key) ∧
      ∃ b, evalCondition a c = .ok b) ∧
    (c.field = "tag" → c.operator = .EQUALS →
      (evalCondition a c = .ok true ↔
        ∃ t ∈ a.tags, c.tag_key = some t.key ∧ c.tag_value = some t.value) ∧
      ∃ b, evalCondition a c = .ok b) ∧
    (c.field ≠ "type" → c.field ≠ "name" → c.field ≠ "tag" →
      evalCondition a c = .ok false) ∧
    ((c.field = "type" ∨ c.field = "name") → c.operator = .EXISTS →
      evalCondition a c = .ok false) ∧
    (c.field = "tag" → c.operator = .CONTAINS → evalCondition a c = .ok false) ∧
    ((c.field = "type" ∨ c.field = "name") → c.operator = .CONTAINS →
      c.value = none →
      evalCondition a c =
        .error "TypeError: in str requires string as left operand, not NoneType") := by
  obtain ⟨f, op, v, tk, tv⟩ := c
  refine ⟨?_, ?_, ?_, ?_, ?_, ?_, ?_, ?_, ?_, ?_⟩
  · rintro rfl rfl
    have he : evalCondition a ⟨"type", .EQUALS, v, tk, tv⟩ =
        .ok (pyEqStrOpt a.type v) := rfl
    rw [he]
    exact ⟨pyEqStrOpt_ok_iff a.type v, _, rfl⟩
  · rintro rfl rfl
    have he : evalCondition a ⟨"name", .EQUALS, v, tk, tv⟩ =
        .ok (pyEqStrOpt a.name v) := rfl
    rw [he]
    exact ⟨pyEqStrOpt_ok_iff a.name v, _, rfl⟩
  · rintro w rfl rfl rfl
    have he : evalCondition a ⟨"type", .CONTAINS, some w, tk, tv⟩ =
        .ok (pyIn w a.type) := rfl
    rw [he]
    simp [pyIn_iff]
  · rintro w rfl rfl rfl
    have he : evalCondition a ⟨"name", .CONTAINS, some w, tk, tv⟩ =
        .ok (pyIn w a.name) := rfl
    rw [he]
    simp [pyIn_iff]
  · rintro rfl rfl
    have he : evalCondition a ⟨"tag", .EXISTS, v, tk, tv⟩ =
        .ok (a.tags.any fun tag => pyEqStrOpt tag.key tk) := rfl
    rw [he]
    refine ⟨?_, _, rfl⟩
    rw [Except.ok.injEq, List.any_eq_true]
    constructor
    · rintro ⟨t, ht, hp⟩
      exact ⟨t, ht, (pyEqStrOpt_true_iff t.key tk).mp hp⟩
    · rintro ⟨t, ht, hp⟩
      exact ⟨t, ht, (pyEqStrOpt_true_iff t.key tk).mpr hp⟩
  · rintro rfl rfl
    have he : evalCondition a ⟨"tag", .EQUALS, v, tk, tv⟩ =
        .ok (a.tags.any fun tag =>
          pyEqStrOpt tag.key tk && pyEqStrOpt tag.value tv) := rfl
    rw [he]
    refine ⟨?_, _, rfl⟩
    rw [Except.ok.injEq, List.any_eq_true]
    constructor
    · rintro ⟨t, ht, hp⟩
      rw [Bool.and_eq_true] at hp
      exact ⟨t, ht, (pyEqStrOpt_true_iff t.key tk).mp hp.1,
        (pyEqStrOpt_true_iff t.value tv).mp hp.2⟩
    · rintro ⟨t, ht, hp1, hp2⟩
      refine ⟨t, ht, ?_⟩
      rw [Bool.and_eq_true]
      exact ⟨(pyEqStrOpt_true_iff t.key tk).mpr hp1,
        (pyEqStrOpt_true_iff t.value tv).mpr hp2⟩
  · intro h1 h2 h3
    simp [evalCondition, h1, h2, h3]
  · rintro (rfl | rfl) rfl <;> rfl
  · rintro rfl rfl
    rfl
  · rintro (rfl | rfl) rfl rfl <;> rfl

/-- Witness for C4: the tag/equals row evaluated at the concrete production
asset and condition. -/
theorem matching_table_witness :
    (evalCondition assetOne
        { field := "tag", operator := .EQUALS, tag_key := some "env",
          tag_value := some "prod" } = .ok true ↔
      ∃ t ∈ assetOne.tags, (some "env" : Option String) = some t.key ∧
        (some "prod" : Option String) = some t.value) ∧
    ∃ b, evalCondition assetOne
        { field := "tag", operator := .EQUALS, tag_key := some "env",
          tag_value := some "prod" } = .ok b :=
  (matching_table assetOne
    { field := "tag", operator := .EQUALS, tag_key := some "env",
      tag_value := some "prod" }).2.2.2.2.2.1 rfl rfl

/-- Structure of a successful `update_asset` call on a present id. -/
theorem updateAsset_present (s : Store) (asset_id : String) (payload : Asset)
    (now : Nat) (current : Asset) (res : Option Asset) (s' : Store)
    (hc : dictGet s.assets asset_id = some current)
    (h : updateAsset s asset_id payload now = .ok (res, s')) :
    ∃ g, evalRules s (mergeAsset payload asset_id current now current.group_name) = .ok g ∧
      res = some (mergeAsset payload asset_id current now g) ∧
      s'.assets = dictInsert s.assets asset_id (mergeAsset payload asset_id current now g) ∧
      s'.rules = s.rules := by
  simp only [updateAsset, hc] at h
  split at h
  · exact absurd h (by simp)
  · rename_i g hg
    rw [Except.ok.injEq, Prod.mk.injEq] at h
    obtain ⟨rfl, rfl⟩ := h
    exact ⟨g, hg, rfl, rfl, rfl⟩

/-- C5: update_asset with an absent id signals NotFound; with a present id it
merges the supplied fields over the stored record, preserves id and
created_at, refreshes updated_at to now, unconditionally re-runs rule
resolution, overwrites group_name with the fresh result (possibly none), and
stores the merged asset back into the mapping. -/
theorem update_asset_semantics (s : Store) (asset_id : String) (payload : Asset)
    (now : Nat) :
    (dictGet s.assets asset_id = none →
      updateAsset s asset_id payload now = .ok (none, s)) ∧
    (∀ current, dictGet s.assets asset_id = some current →
      ∀ res s', updateAsset s asset_id payload now = .ok (res, s') →
        ∃ a, res = some a ∧
          a.name = payload.name ∧ a.type = payload.type ∧ a.tags = payload.tags ∧
          a.cloud_account = payload.cloud_account ∧ a.owner_id = payload.owner_id ∧
          a.region = payload.region ∧ a.id = some asset_id ∧
          a.created_at = current.created_at ∧ a.updated_at = some now ∧
          evalRules s a = .ok a.group_name ∧
          s'.assets = dictInsert s.assets asset_id a ∧ s'.rules = s.rules) := by
  constructor
  · intro h
    unfold updateAsset
    rw [h]
  · intro current hc res s' h
    obtain ⟨g, hg, rfl, ha, hr⟩ := updateAsset_present s asset_id payload now current res s' hc h
    refine ⟨_, rfl, rfl, rfl, rfl, rfl, rfl, rfl, rfl, rfl, rfl, ?_, ha, hr⟩
    have hcg : evalRulesList (mergeAsset payload asset_id current now g)
        (dictValues s.rules) =
        evalRulesList (mergeAsset payload asset_id current now current.group_name)
        (dictValues s.rules) :=
      evalRulesList_congr (dictValues s.rules) rfl rfl rfl
    exact hcg.trans hg

/-- Witness for C5: updating the stored asset with the data of `assetTwo` at
instant 7 in a rule-free store. -/
theorem update_asset_semantics_witness :
    ∃ a, (some updatedAssetTwo : Option Asset) = some a ∧
      a.name = assetTwo.name ∧ a.type = assetTwo.type ∧ a.tags = assetTwo.tags ∧
      a.cloud_account = assetTwo.cloud_account ∧ a.owner_id = assetTwo.owner_id ∧
      a.region = assetTwo.region ∧ a.id = some "a1" ∧
      a.created_at = storedAssetOne.created_at ∧ a.updated_at = some 7 ∧
      evalRules storeA a = .ok a.group_name ∧
      storeAupd.assets = dictInsert storeA.assets "a1" a ∧
      storeAupd.rules = storeA.rules :=
  (update_asset_semantics storeA "a1" assetTwo 7).2 storedAssetOne rfl
    (some updatedAssetTwo) storeAupd rfl

/-- Full contract of `_process_existing_assets`: the rule mapping is
untouched, assets with a truthy group are returned unchanged, and ungrouped
ones are re-evaluated, acquiring only a truthy result together with a fresh
`updated_at`. -/
theorem pass_contract (s : Store) (now : Nat) (s' : Store)
    (h : processExistingAssets s now = .ok s') :
    s'.rules = s.rules ∧
    ∀ key a, dictGet s.assets key = some a →
      (truthy a.group_name = true → dictGet s'.assets key = some a) ∧
      (truthy a.group_name = false →
        ∃ g, evalRules s a = .ok g ∧
          dictGet s'.assets key = some (if truthy g = true then
            { a with group_name := g, updated_at := some now } else a)) := by
  obtain ⟨hl, hr⟩ := processExistingAssets_ok s now s' h
  refine ⟨hr, ?_⟩
  intro key a ha
  obtain ⟨a', hpa, hga⟩ :=
    (processAssetsList_get (dictValues s.rules) now s.assets s'.assets hl key).2 a ha
  constructor
  · intro ht
    have haa : a' = a := by
      unfold processAsset at hpa
      rw [if_pos ht] at hpa
      injection hpa with hpa
      exact hpa.symm
    rwa [haa] at hga
  · intro ht
    rcases processAsset_cases (dictValues s.rules) now a a' hpa with
      ⟨ht2, _⟩ | ⟨_, g, he, hcase⟩
    · rw [ht] at ht2
      exact absurd ht2 (by simp)
    · refine ⟨g, he, ?_⟩
      rcases hcase with ⟨hg, rfl⟩ | ⟨hg, rfl⟩
      · rw [if_neg (by simp [hg])]
        exact hga
      · rw [if_pos hg]
        exact hga

/-- C6: the reprocessing pass triggered by rule creation re-evaluates exactly
the assets with no current group assignment, assigning the resolved group and
refreshing `updated_at` only when a (truthy) group is found, and leaves
already-grouped assets untouched; since create_rule runs the pass
synchronously, an ungrouped stored asset that the enlarged rule set resolves
to the group of the new rule acquires that group as a side effect of rule
creation. -/
theorem rule_creation_groups_ungrouped :
    (∀ s now s', processExistingAssets s now = .ok s' →
      s'.rules = s.rules ∧
      ∀ key a, dictGet s.assets key = some a →
        (truthy a.group_name = true → dictGet s'.assets key = some a) ∧
        (truthy a.group_name = false →
          ∃ g, evalRules s a = .ok g ∧
            dictGet s'.assets key = some (if truthy g = true then
              { a with group_name := g, updated_at := some now } else a))) ∧
    (∀ s rule rid now nr s', createRule s rule rid now = .ok (nr, s') →
      ∀ key a, dictGet s.assets key = some a → truthy a.group_name = false →
        evalRulesList a (dictValues (dictInsert s.rules rid nr)) =
          .ok (some nr.group_name) →
        nr.group_name ≠ "" →
        dictGet s'.assets key =
          some { a with group_name := some nr.group_name, updated_at := some now }) := by
  refine ⟨pass_contract, ?_⟩
  intro s rule rid now nr s' hc key a ha hug he hne
  simp only [createRule] at hc
  split at hc
  · exact absurd hc (by simp)
  · rename_i s3 hp
    rw [Except.ok.injEq, Prod.mk.injEq] at hc
    obtain ⟨hnr, rfl⟩ := hc
    rw [hnr] at hp
    obtain ⟨-, hcontract⟩ := pass_contract _ now _ hp
    obtain ⟨g, hg, hget⟩ := (hcontract key a ha).2 hug
    have hgg : (Except.ok g : Except String (Option String)) =
        .ok (some nr.group_name) :=
      hg.symm.trans he
    injection hgg with hgg
    subst hgg
    rw [if_pos (by simp [truthy, hne])] at hget
    exact hget

/-- Witness for C6: creating the production rule over a store holding one
matching ungrouped asset groups that asset as a side effect. -/
theorem rule_creation_groups_ungrouped_witness :
    dictGet storeC6after.assets "a1" =
      some { storedAssetOne with group_name := some storedRule3.group_name, updated_at := some 3 } :=
  (rule_creation_groups_ungrouped).2 storeA sampleRule "r1" 3 storedRule3
    storeC6after rfl "a1" storedAssetOne rfl rfl rfl (by decide)

/-- Bumping `updated_at` to the current instant keeps the timestamp order,
provided the old `created_at` does not lie in the future. -/
theorem timesOkB_bump (cur a : Asset) (now : Nat)
    (hc : a.created_at = cur.created_at) (hu : a.updated_at = some now)
    (hok : timesOkB cur = true) (hb : belowB now cur = true) :
    timesOkB a = true := by
  unfold timesOkB at hok ⊢
  unfold belowB at hb
  rw [hc, hu]
  cases hca : cur.created_at with
  | none =>
    rw [hca] at hok
    exact absurd hok (by simp)
  | some c =>
    rw [hca] at hb
    simpa using hb

/-- The pass loop body preserves the timestamp order. -/
theorem processAsset_timesOk (rules : List GroupingRule) (now : Nat) (a a' : Asset)
    (h : processAsset rules now a = .ok a')
    (hok : timesOkB a = true) (hb : belowB now a = true) :
    timesOkB a' = true := by
  obtain ⟨hc, hu⟩ := processAsset_times rules now a a' h
  rcases hu with hu | hu
  · unfold timesOkB at hok ⊢
    rw [hc, hu]
    exact hok
  · exact timesOkB_bump a a' now hc hu hok hb

/-- The whole pass preserves the timestamp order of every stored asset. -/
theorem pass_timesOk (s : Store) (now : Nat) (s' : Store)
    (h : processExistingAssets s now = .ok s')
    (hinv : ∀ p ∈ s.assets, timesOkB p.2 = true)
    (hb : ∀ p ∈ s.assets, belowB now p.2 = true) :
    ∀ p ∈ s'.assets, timesOkB p.2 = true := by
  intro p hp
  obtain ⟨hl, -⟩ := processExistingAssets_ok s now s' h
  obtain ⟨a, hmem, hpa⟩ :=
    processAssetsList_mem (dictValues s.rules) now s.assets s'.assets hl p hp
  exact processAsset_timesOk _ now a p.2 hpa (hinv (p.1, a) hmem) (hb (p.1, a) hmem)

/-- Every asset survives the whole pass with its `created_at` unchanged. -/
theorem pass_survives (s : Store) (now : Nat) (s' : Store)
    (h : processExistingAssets s now = .ok s') (key : String) (a : Asset)
    (ha : dictGet s.assets key = some a) :
    ∃ a', dictGet s'.assets key = some a' ∧ a'.created_at = a.created_at := by
  obtain ⟨hl, -⟩ := processExistingAssets_ok s now s' h
  obtain ⟨b, hpb, hgb⟩ :=
    (processAssetsList_get (dictValues s.rules) now s.assets s'.assets hl key).2 a ha
  exact ⟨b, hgb, (processAsset_times (dictValues s.rules) now a b hpb).1⟩

/-- Structure of a successful `create_asset` call. -/
theorem createAsset_ok (s : Store) (pa : Asset) (aid : String) (now : Nat)
    (res : Asset) (s' : Store) (h : createAsset s pa aid now = .ok (res, s')) :
    res.created_at = some now ∧ res.updated_at = some now ∧
    s'.assets = dictInsert s.assets aid res ∧ s'.rules = s.rules := by
  simp only [createAsset] at h
  split at h
  · exact absurd h (by simp)
  · rename_i g hg
    rw [Except.ok.injEq, Prod.mk.injEq] at h
    obtain ⟨rfl, rfl⟩ := h
    refine ⟨?_, ?_, rfl, rfl⟩ <;> split <;> rfl

/-- Structure of a successful `create_rule` call. -/
theorem createRule_ok (s : Store) (rule : GroupingRule) (rid : String) (now : Nat)
    (nr : GroupingRule) (s' : Store) (h : createRule s rule rid now = .ok (nr, s')) :
    nr.created_at = some now ∧ nr.updated_at = some now ∧
    processExistingAssets { s with rules := dictInsert s.rules rid nr } now = .ok s' := by
  simp only [createRule] at h
  split at h
  · exact absurd h (by simp)
  · rename_i s3 hp
    rw [Except.ok.injEq, Prod.mk.injEq] at h
    obtain ⟨hnr, rfl⟩ := h
    rw [hnr] at hp
    exact ⟨hnr ▸ rfl, hnr ▸ rfl, hp⟩

/-- One step of any mutating operation preserves the timestamp invariant and
keeps every stored asset alive with its `created_at` unchanged, assuming a
monotone clock and a fresh generated id. -/
theorem step_invariant (s : Store) (op : Op) (s' : Store)
    (hok : applyOp s op = .ok s')
    (hinv : ∀ p ∈ s.assets, timesOkB p.2 = true)
    (hbel : ∀ p ∈ s.assets, belowB (opNow op) p.2 = true)
    (hfresh : opFreshB s op = true) :
    (∀ p ∈ s'.assets, timesOkB p.2 = true) ∧
    (∀ key a, dictGet s.assets key = some a →
      ∃ a', dictGet s'.assets key = some a' ∧ a'.created_at = a.created_at) := by
  cases op with
  | opCreateAsset pa aid now =>
    simp only [applyOp] at hok
    split at hok
    · exact absurd hok (by simp)
    · rename_i q hq
      rw [Except.ok.injEq] at hok
      subst hok
      obtain ⟨hc, hu, hassets, -⟩ := createAsset_ok s pa aid now q.1 q.2 hq
      have hfr : dictGet s.assets aid = none := by
        simp only [opFreshB, Option.isNone_iff_eq_none] at hfresh
        exact hfresh
      constructor
      · intro p hp
        rw [hassets] at hp
        rcases dictInsert_mem s.assets aid q.1 p hp with rfl | hmem
        · unfold timesOkB
          rw [hc, hu]
          simp
        · exact hinv p hmem
      · intro key a ha
        rw [hassets, dictGet_insert]
        by_cases hk : (aid == key) = true
        · rw [beq_iff_eq] at hk
          subst hk
          rw [ha] at hfr
          exact absurd hfr (by simp)
        · rw [if_neg hk]
          exact ⟨a, ha, rfl⟩
  | opUpdateAsset aid pa now =>
    simp only [applyOp] at hok
    split at hok
    · exact absurd hok (by simp)
    · rename_i q hq
      rw [Except.ok.injEq] at hok
      subst hok
      cases hcur : dictGet s.assets aid with
      | none =>
        have hqs : q = (none, s) := by
          unfold updateAsset at hq
          rw [hcur] at hq
          injection hq with hq
          exact hq.symm
        rw [hqs]
        refine ⟨hinv, ?_⟩
        intro key a ha
        exact ⟨a, ha, rfl⟩
      | some current =>
        obtain ⟨g, -, -, hassets, -⟩ :=
          updateAsset_present s aid pa now current q.1 q.2 hcur hq
        have hcmem := dictGet_mem s.assets aid current hcur
        have htc : timesOkB (mergeAsset pa aid current now g) = true :=
          timesOkB_bump current _ now rfl rfl (hinv (aid, current) hcmem)
            (hbel (aid, current) hcmem)
        constructor
        · intro p hp
          rw [hassets] at hp
          rcases dictInsert_mem s.assets aid _ p hp with rfl | hmem
          · exact htc
          · exact hinv p hmem
        · intro key a ha
          rw [hassets, dictGet_insert]
          by_cases hk : (aid == key) = true
          · rw [if_pos hk]
            rw [beq_iff_eq] at hk
            subst hk
            rw [ha] at hcur
            injection hcur with hcur
            refine ⟨mergeAsset pa aid current now g, rfl, ?_⟩
            rw [hcur]
            rfl
          · rw [if_neg hk]
            exact ⟨a, ha, rfl⟩
  | opCreateRule rule rid now =>
    simp only [applyOp] at hok
    split at hok
    · exact absurd hok (by simp)
    · rename_i q hq
      rw [Except.ok.injEq] at hok
      subst hok
      obtain ⟨-, -, hp⟩ := createRule_ok s rule rid now q.1 q.2 hq
      exact ⟨pass_timesOk _ now q.2 hp hinv hbel,
        fun key a ha => pass_survives _ now q.2 hp key a ha⟩
  | opUpdateRule rid p now =>
    simp only [applyOp] at hok
    split at hok
    · exact absurd hok (by simp)
    · rename_i q hq
      rw [Except.ok.injEq] at hok
      subst hok
      rw [updateRule_ok s rid p now q hq]
      refine ⟨hinv, ?_⟩
      intro key a ha
      exact ⟨a, ha, rfl⟩
  | opReprocess now =>
    exact ⟨pass_timesOk s now s' hok hinv hbel,
      fun key a ha => pass_survives s now s' hok key a ha⟩

/-- A whole well-formed trace of operations preserves the invariant and the
identity and `created_at` of every asset alive at its start. -/
theorem trace_invariant (ops : List Op) : ∀ s s',
    (∀ p ∈ s.assets, timesOkB p.2 = true) → validOpsB s ops = true →
    applyOps s ops = .ok s' →
    (∀ p ∈ s'.assets, timesOkB p.2 = true) ∧
    (∀ key a, dictGet s.assets key = some a →
      ∃ a', dictGet s'.assets key = some a' ∧ a'.created_at = a.created_at) := by
  induction ops with
  | nil =>
    intro s s' hinv hv ha
    simp only [applyOps] at ha
    injection ha with ha
    subst ha
    exact ⟨hinv, fun key a hk => ⟨a, hk, rfl⟩⟩
  | cons op ops ih =>
    intro s s' hinv hv ha
    simp only [applyOps] at ha
    split at ha
    · exact absurd ha (by simp)
    · rename_i s1 h1
      simp only [validOpsB, h1, Bool.and_eq_true, List.all_eq_true] at hv
      obtain ⟨⟨hb, hf⟩, hrest⟩ := hv
      obtain ⟨hinv1, hpres1⟩ := step_invariant s op s1 h1 hinv hb hf
      obtain ⟨hinv2, hpres2⟩ := ih s1 s' hinv1 hrest ha
      refine ⟨hinv2, ?_⟩
      intro key a hk
      obtain ⟨a1, hk1, hc1⟩ := hpres1 key a hk
      obtain ⟨a2, hk2, hc2⟩ := hpres2 key a1 hk1
      exact ⟨a2, hk2, hc2.trans hc1⟩

/-- C8: over any single operation and any well-formed sequence of operations
(monotone clock, fresh generated ids), every stored asset keeps
`created_at ≤ updated_at`, and an asset alive at the start survives with its
`created_at` unchanged. -/
theorem timestamps_invariant (s : Store)
    (hinv : ∀ p ∈ s.assets, timesOkB p.2 = true) :
    (∀ op s', applyOp s op = .ok s' →
      (∀ p ∈ s.assets, belowB (opNow op) p.2 = true) → opFreshB s op = true →
      (∀ p ∈ s'.assets, timesOkB p.2 = true) ∧
      (∀ key a, dictGet s.assets key = some a →
        ∃ a', dictGet s'.assets key = some a' ∧ a'.created_at = a.created_at)) ∧
    (∀ ops s', validOpsB s ops = true → applyOps s ops = .ok s' →
      (∀ p ∈ s'.assets, timesOkB p.2 = true) ∧
      (∀ key a, dictGet s.assets key = some a →
        ∃ a', dictGet s'.assets key = some a' ∧ a'.created_at = a.created_at)) :=
  ⟨fun op s' hok hbel hfresh => step_invariant s op s' hok hinv hbel hfresh,
   fun ops s' hv ha => trace_invariant ops s s' hinv hv ha⟩

/-- Witness for C8: the two-operation trace that creates the asset at instant
1 and the production rule at instant 3 over the empty store. -/
theorem timestamps_invariant_witness :
    (∀ p ∈ storeC6after.assets, timesOkB p.2 = true) ∧
    (∀ key a, dictGet emptyStore.assets key = some a →
      ∃ a', dictGet storeC6after.assets key = some a' ∧
        a'.created_at = a.created_at) :=
  (timestamps_invariant emptyStore (by decide)).2
    [.opCreateAsset assetOne "a1" 1, .opCreateRule sampleRule "r1" 3]
    storeC6after (by decide) rfl

/-- C10: an empty-string group name behaves as 'no group' on the grouping
paths — when resolution yields the empty string, create_asset leaves the new
group_name of the new asset as none; the reprocessing pass treats an empty-string
group_name as ungrouped (it re-evaluates such assets) and never stores a
non-truthy result; only update_asset stores the empty-string result
verbatim. -/
theorem empty_string_group_name :
    (∀ s pa aid now a s', createAsset s pa aid now = .ok (a, s') →
      evalRules s a = .ok (some "") → a.group_name = none) ∧
    (∀ rules now a a', a.group_name = some "" → processAsset rules now a = .ok a' →
      ∃ g, evalRulesList a rules = .ok g ∧
        a' = (if truthy g = true then
          { a with group_name := g, updated_at := some now } else a)) ∧
    (∀ s aid pa now a s', updateAsset s aid pa now = .ok (some a, s') →
      evalRules s a = .ok (some "") → a.group_name = some "") := by
  refine ⟨?_, ?_, ?_⟩
  · intro s pa aid now a s' h heval
    simp only [createAsset] at h
    split at h
    · exact absurd h (by simp)
    · rename_i g hg
      rw [Except.ok.injEq, Prod.mk.injEq] at h
      obtain ⟨rfl, rfl⟩ := h
      by_cases ht : truthy g = true
      · rw [if_pos ht] at heval ⊢
        have hcg : evalRulesList { pa with id := some aid, group_name := g, created_at := some now, updated_at := some now } (dictValues s.rules) = evalRulesList { pa with id := some aid, group_name := none, created_at := some now, updated_at := some now } (dictValues s.rules) :=
          evalRulesList_congr (dictValues s.rules) rfl rfl rfl
        have hgg : (Except.ok g : Except String (Option String)) = .ok (some "") :=
          hg.symm.trans (hcg.symm.trans heval)
        injection hgg with hgg
        subst hgg
        simp [truthy] at ht
      · rw [if_neg ht]
  · intro rules now a a' hgn h
    have htf : ¬(truthy a.group_name = true) := by
      rw [hgn]
      simp [truthy]
    unfold processAsset at h
    rw [if_neg htf] at h
    split at h
    · exact absurd h (by simp)
    · rename_i g hge
      refine ⟨g, hge, ?_⟩
      by_cases htg : truthy g = true
      · rw [if_pos htg] at h ⊢
        injection h with h
        exact h.symm
      · rw [if_neg htg] at h ⊢
        injection h with h
        exact h.symm
  · intro s aid pa now a s' h heval
    cases hcur : dictGet s.assets aid with
    | none =>
      unfold updateAsset at h
      rw [hcur] at h
      rw [Except.ok.injEq, Prod.mk.injEq] at h
      exact absurd h.1 (by simp)
    | some current =>
      obtain ⟨g, hg, hres, -, -⟩ :=
        updateAsset_present s aid pa now current (some a) s' hcur h
      injection hres with hres
      subst hres
      have hcg : evalRulesList (mergeAsset pa aid current now g)
          (dictValues s.rules) =
          evalRulesList (mergeAsset pa aid current now current.group_name)
          (dictValues s.rules) :=
        evalRulesList_congr (dictValues s.rules) rfl rfl rfl
      have hgg : (Except.ok g : Except String (Option String)) = .ok (some "") :=
        hg.symm.trans (hcg.symm.trans heval)
      injection hgg with hgg

/-- Witness for C10: the pass re-evaluates an asset whose cached group is the
empty string and leaves it unchanged when resolution again yields the empty
string. -/
theorem empty_string_group_name_witness :
    ∃ g, evalRulesList assetEmptyG [ruleEmptyName] = .ok g ∧
      assetEmptyG = (if truthy g = true then
        { assetEmptyG with group_name := g, updated_at := some 4 } else assetEmptyG) :=
  (empty_string_group_name).2.1 [ruleEmptyName] 4 assetEmptyG assetEmptyG rfl rfl

end Grouping
